import Mathlib

/-!
# Verification of the qio pure-effect runtime against its specification

This file embeds the parts of the qio effect library that the frozen claims
are about, and settles each claim.

Sources embedded:
* `src/unnamed/part_000` — the `QIO` class: the effect constructors
  (`Tag.Constant`, `Tag.Reject`, `Tag.Try`, `Tag.Access`, `Tag.Map`,
  `Tag.Chain`, `Tag.Catch`, …) and the derived combinators
  (`chain`, `map`, `and`, `const`, `zip`, `zipWith`, `seq`, `par`, `parN`,
  `race`, `raceWith`, `timeout`, `once`).
* `src/unnamed/part_001` — the `Queue` class (`offer`, `take`, `takeN`,
  `setAwaited`, `bounded`).
* `src/src/sources/Computation.ts` — `Computation.fork` (the older
  callback-based runner with its cancellation closure).

The interpreter loop, the `Fiber` implementation, the `Await` one-shot latch
and the scheduler are not part of the given sources (only their interfaces
and callers are); where a claim needs them they are modelled from the spec
(sections 3, 4.1, 4.3, 4.4 of `spec.md`) and each such definition says so in
its doc comment.
-/

/-- Outcome of evaluating an effect on its success/error channels
(spec section 7: `Outcome<E,A> = Success(A) | Failure(E)`; the `Interrupted`
alternative does not arise in the synchronous fragment evaluated here). -/
inductive Outcome (ε α : Type u) : Type u where
  | success : α → Outcome ε α
  | failure : ε → Outcome ε α
deriving DecidableEq, Repr

/-- Deep embedding of the synchronous (pure) fragment of the `QIO` effect
algebra from `src/unnamed/part_000`.  Each constructor corresponds to a
`Tag` used by the source's `QIO` constructor calls:

* `const`  — `QIO.of(value)` / `Tag.Constant` (part_000 lines 366-368)
* `reject` — `QIO.reject(error)` / `Tag.Reject` (lines 418-420)
* `tryQ`   — `QIO.lift(cb)` = `QIO.resume(cb)` / `Tag.Try` (lines 317-319,
  425-427); the thunk is total here (host exceptions are out of scope)
* `access` — `QIO.access(cb)` / `Tag.Access` (lines 100-102)
* `map`    — `QIO.map(fa, ab)` / `Tag.Map` (lines 324-329)
* `chain`  — `QIO.chain(fa, aFb)` / `Tag.Chain` (lines 200-205)
* `catchQ` — `QIO.catch(fa, aFe)` / `Tag.Catch` (lines 181-186); the error
  type is kept fixed (the TypeScript source unions error types)

The environment type `ρ` and error type `ε` are fixed per effect tree. -/
inductive QIOP (ε ρ : Type u) : Type u → Type (u + 1) where
  | const {α : Type u} : α → QIOP ε ρ α
  | reject {α : Type u} : ε → QIOP ε ρ α
  | tryQ {α : Type u} : (Unit → α) → QIOP ε ρ α
  | access {α : Type u} : (ρ → α) → QIOP ε ρ α
  | map {α β : Type u} : QIOP ε ρ β → (β → α) → QIOP ε ρ α
  | chain {α β : Type u} : QIOP ε ρ β → (β → QIOP ε ρ α) → QIOP ε ρ α
  | catchQ {α : Type u} : QIOP ε ρ α → (ε → QIOP ε ρ α) → QIOP ε ρ α

namespace QIOP

/-- Modelled from the spec: the interpreter's synchronous subloop
(spec section 4.3, steps 1-3) collapsed to a denotation.  The fiber
evaluator itself is not among the given sources; per the spec the pure
constructors are dispatched synchronously: `Const` succeeds, `Reject`
fails, `Try` runs its thunk, `Access` applies the current environment,
`Map` transforms a success, `Chain` feeds a success to the continuation
and propagates failure, `Catch` feeds a failure to the handler and
propagates success. -/
def eval {ε ρ : Type u} (r : ρ) : {α : Type u} → QIOP ε ρ α → Outcome ε α
  | _, .const a => .success a
  | _, .reject e => .failure e
  | _, .tryQ f => .success (f ())
  | _, .access f => .success (f r)
  | _, .map m f =>
    match eval r m with
    | .success a => .success (f a)
    | .failure e => .failure e
  | _, .chain m k =>
    match eval r m with
    | .success a => eval r (k a)
    | .failure e => .failure e
  | _, .catchQ m h =>
    match eval r m with
    | .success a => .success a
    | .failure e => eval r (h e)

/-- `x.and(y)` from part_000 lines 535-538: `this.chain(() => aFb)`. -/
def andQ {ε ρ α β : Type u} (x : QIOP ε ρ β) (y : QIOP ε ρ α) : QIOP ε ρ α :=
  .chain x fun _ => y

/-- `QIO.env()` from part_000 lines 237-239: `QIO.access(Id)`. -/
def env {ε ρ : Type u} : QIOP ε ρ ρ :=
  .access fun r => r

/-- `x.addEnv()` from part_000 lines 528-530: `QIO.env().and(this)`. -/
def addEnv {ε ρ α : Type u} (x : QIOP ε ρ α) : QIOP ε ρ α :=
  andQ env x

/-- `QIO.seq(ios)` from part_000 lines 447-456:

```ts
return ios
  .reduce(
    (fList, f) => fList.chain(list => f.map(value => list.prepend(value))),
    QIO.lift<E1, List<A1>>(() => List.empty<A1>()).addEnv<R1>()
  )
  .map(_ => _.asArray)
```

`Array.prototype.reduce` with an initial value is a left fold;
`List.prepend` on the immutable cons list of `standard-data-structures`
is `cons`, and `asArray` traverses the list head first (the same reading
under which the in-repo `Managed.zip` test, which expects `QIO.par` —
built with `prepend` followed by `asArray.reverse()` — to return values
in input order, passes).  So `asArray` is the identity on our `List`
representation. -/
def seq {ε ρ α : Type u} (qs : List (QIOP ε ρ α)) : QIOP ε ρ (List α) :=
  .map
    (qs.foldl
      (fun fList f => .chain fList fun list => .map f fun value => value :: list)
      (addEnv (.tryQ fun _ => ([] : List α))))
    (fun l => l)

/-- Evaluation of the fold inside `QIO.seq`: starting from an accumulator
that succeeds with `l0`, folding a list of effects that succeed with `vs`
(in order) succeeds with `vs.reverse ++ l0`, because each step prepends
the new value to the accumulated list. -/
theorem seq_foldl_eval {ε ρ α : Type} (r : ρ)
    {qs : List (QIOP ε ρ α)} {vs : List α}
    (h : List.Forall₂ (fun q v => eval r q = Outcome.success v) qs vs)
    (acc : QIOP ε ρ (List α)) (l0 : List α)
    (hacc : eval r acc = Outcome.success l0) :
    eval r (qs.foldl
      (fun fList f => .chain fList fun list => .map f fun value => value :: list)
      acc)
      = Outcome.success (vs.reverse ++ l0) := by
  induction h generalizing acc l0 with
  | nil => simpa using hacc
  | @cons q v qs' vs' hq hrest ih =>
      simp only [List.foldl_cons]
      have hstep :
          eval r (QIOP.chain acc fun list => QIOP.map q fun value => value :: list)
            = Outcome.success (v :: l0) := by
        simp [eval, hacc, hq]
      simpa [List.append_assoc] using ih _ _ hstep

end QIOP

/-- C3: the monad laws hold for `Chain` over `Const` as observable-outcome
equalities: `Const(a).chain(f)` evaluates like `f(a)` (left identity),
`m.chain(Const)` evaluates like `m` (right identity), and
`m.chain(f).chain(g)` evaluates like `m.chain(x => f(x).chain(g))`
(associativity), for every environment. -/
theorem c3_monad_laws (ε ρ α β γ : Type) :
    (∀ (a : α) (f : α → QIOP ε ρ β) (r : ρ),
      QIOP.eval r (QIOP.chain (QIOP.const a) f) = QIOP.eval r (f a)) ∧
    (∀ (m : QIOP ε ρ α) (r : ρ),
      QIOP.eval r (QIOP.chain m QIOP.const) = QIOP.eval r m) ∧
    (∀ (m : QIOP ε ρ α) (f : α → QIOP ε ρ β) (g : β → QIOP ε ρ γ) (r : ρ),
      QIOP.eval r (QIOP.chain (QIOP.chain m f) g)
        = QIOP.eval r (QIOP.chain m fun x => QIOP.chain (f x) g)) := by
  refine ⟨fun a f r => rfl, fun m r => ?_, fun m f g r => ?_⟩
  · cases hm : QIOP.eval r m <;> simp [QIOP.eval, hm]
  · cases hm : QIOP.eval r m with
    | success a => cases hf : QIOP.eval r (f a) <;> simp [QIOP.eval, hm, hf]
    | failure e => simp [QIOP.eval, hm]

/-- C9 counterexample: `QIO.seq([QIO.of(1), QIO.of(2)])` evaluates to
`Success([2, 1])`, not `Success([1, 2])`: the i-th element of the result
is not the success value of the i-th effect. -/
theorem c9_seq_not_input_order :
    QIOP.eval () (QIOP.seq [QIOP.const (ε := Unit) (1 : Nat), QIOP.const 2])
        = Outcome.success [2, 1] ∧
      QIOP.eval () (QIOP.seq [QIOP.const (ε := Unit) (1 : Nat), QIOP.const 2])
        ≠ Outcome.success [1, 2] := by
  exact ⟨rfl, by decide⟩

/-- C9 (amended): for every list of effects that all succeed (synchronously),
`QIO.seq` resolves with the array of their success values in **reverse**
input order — the fold prepends each success to the accumulator and the
resulting cons list is read out head first without a final `reverse`
(unlike `QIO.par`, which does apply `.reverse()`). -/
theorem c9_seq_reverse_order {ε ρ α : Type} (r : ρ)
    (qs : List (QIOP ε ρ α)) (vs : List α)
    (h : List.Forall₂ (fun q v => QIOP.eval r q = Outcome.success v) qs vs) :
    QIOP.eval r (QIOP.seq qs) = Outcome.success vs.reverse := by
  have hacc : QIOP.eval r (QIOP.addEnv (ε := ε) (.tryQ fun _ => ([] : List α)))
      = Outcome.success ([] : List α) := by
    simp [QIOP.eval, QIOP.addEnv, QIOP.andQ, QIOP.env]
  have hfold := QIOP.seq_foldl_eval r h _ _ hacc
  unfold QIOP.seq
  simp [QIOP.eval, hfold]

/-- C9 witness: instantiating the amended theorem at
`[Const 1, Const 2]` yields `Success([2,1])`. -/
theorem c9_seq_reverse_order_witness :
    List.Forall₂ (fun q v => QIOP.eval () q = Outcome.success v)
        [QIOP.const (ε := Unit) (ρ := Unit) (1 : Nat), QIOP.const 2] [1, 2] ∧
      QIOP.eval () (QIOP.seq [QIOP.const (ε := Unit) (ρ := Unit) (1 : Nat), QIOP.const 2])
        = Outcome.success [2, 1] :=
  ⟨List.Forall₂.cons rfl (List.Forall₂.cons rfl List.Forall₂.nil),
    c9_seq_reverse_order () [QIOP.const 1, QIOP.const 2] [1, 2]
      (List.Forall₂.cons rfl (List.Forall₂.cons rfl List.Forall₂.nil))⟩

namespace ParN

/-- The recursion skeleton of `QIO.parN` from part_000 lines 387-401:

```ts
const itar = (list: Array<QIO<E1, A1, R1>>): QIO<E1, A1[], R1> =>
  QIO.if(
    list.length === 0,
    QIO.of([]),
    QIO.par(list.slice(0, N)).chain(l1 =>
      itar(list.slice(N, list.length)).map(l2 => l1.concat(l2))
    )
  )
```

`list.slice(0, N)` is `List.take N`, `list.slice(N, list.length)` is
`List.drop N`, and `l1.concat(l2)` is append.  The effect layer is
projected away onto the values the chunks would produce: `QIO.par` of a
chunk contributes the chunk itself.  Since the recursion is not
structurally decreasing for all `N`, it is reified with a fuel
parameter: `none` means the recursion did not reach its base case within
`fuel` unfoldings of `itar`. -/
def itar (N : Nat) : Nat → List α → Option (List α)
  | 0, _ => none
  | fuel + 1, list =>
      if list.length = 0 then some []
      else (itar N fuel (list.drop N)).map fun l2 => list.take N ++ l2

/-- With positive chunk size, `itar` reaches its base case within
`list.length` unfoldings and reassembles the whole list in order. -/
theorem itar_pos {α : Type} (N : Nat) (hN : 1 ≤ N) :
    ∀ (fuel : Nat) (list : List α), list.length < fuel →
      itar N fuel list = some list := by
  intro fuel
  induction fuel with
  | zero => intro list h; omega
  | succ fuel ih =>
      intro list h
      match list with
      | [] => simp [itar]
      | a :: rest =>
          have hdrop : ((a :: rest).drop N).length < fuel := by
            have := List.length_drop N (a :: rest)
            simp only [List.length_cons] at h this
            omega
          simp only [itar, List.length_cons]
          rw [if_neg (by omega)]
          rw [ih _ hdrop]
          simp [List.take_append_drop]

/-- With chunk size 0 and a non-empty list, `slice(N, length)` returns the
whole list again and the recursion never reaches its base case: no amount
of fuel produces a result. -/
theorem itar_zero {α : Type} (list : List α) (hne : list ≠ []) :
    ∀ fuel : Nat, itar 0 fuel list = none := by
  intro fuel
  induction fuel with
  | zero => rfl
  | succ fuel ih =>
      simp only [itar]
      rw [if_neg (by simpa [List.length_eq_zero] using hne)]
      simp [List.drop_zero, ih]

end ParN

/-- C10: the chunking recursion `itar` inside `QIO.parN(N, ios)` is
well-founded exactly when `N ≥ 1` or the list is empty: for every `N ≥ 1`
and every finite list, each step removes `N` elements (`slice(N, length)`)
and the recursion terminates within `length + 1` unfoldings, reassembling
the chunks in order; for `N = 0` and a non-empty list, `slice(0, N)` and
`slice(N, length)` make no progress and no amount of fuel reaches the base
case. -/
theorem c10_parN_termination {α : Type} (N : Nat) (list : List α) :
    (1 ≤ N → ParN.itar N (list.length + 1) list = some list) ∧
    (N = 0 → list ≠ [] → ∀ fuel : Nat, ParN.itar N fuel list = none) := by
  constructor
  · intro hN
    exact ParN.itar_pos N hN (list.length + 1) list (Nat.lt_succ_self _)
  · intro hz hne fuel
    subst hz
    exact ParN.itar_zero list hne fuel

/-- C10 witness: chunk size 1 consumes `[5]` with fuel 2, while chunk
size 0 never consumes `[7]`. -/
theorem c10_parN_termination_witness :
    ParN.itar 1 2 [5] = some [5] ∧ ParN.itar 0 3 [(7 : Nat)] = none :=
  ⟨(c10_parN_termination 1 [5]).1 (by decide),
    (c10_parN_termination 0 [(7 : Nat)]).2 rfl (by decide) 3⟩

namespace QueueM

/-- State of a `Queue` from `src/unnamed/part_001`, observed at a quiescent
moment (no handler mid-execution; spec section 5 serializes all mutation on
one cooperative thread):

* `capacity` — the constructor argument (part_001 lines 64-68);
* `items` — the backing `PureMutableList` `Q` (FIFO: `add` appends,
  `shift` removes the head), holding the stored values;
* `takers` — the backing `PureMutableList` `T` of pending `take`s, each
  represented by the id of the take that created its `Await`; modelled
  from the spec (section 4.4): an `Await` stored in `takers` is resolved
  by the first `set` called on it, which hands the set value to the
  suspended taker;
* `results` — the values handed to resolved `take`s, in resolution order,
  tagged with the id of the take that receives each value;
* `nextId` — source of fresh take ids. -/
structure QueueSt (α : Type) where
  capacity : Nat
  items : List α
  takers : List Nat
  results : List (Nat × α)
  nextId : Nat
deriving DecidableEq, Repr

/-- `Queue.bounded(capacity)` from part_001 lines 50-55: two fresh empty
`PureMutableList`s and the given capacity. -/
def bounded (capacity : Nat) : QueueSt α :=
  ⟨capacity, [], [], [], 0⟩

/-- `take` from part_001 lines 35-45:

```ts
return this.Q.shift.chain(sz =>
  sz !== undefined
    ? FIO.of(sz)
    : FIO.flatten(
        Await.of<never, A>().chain(
          FIO.encase(await => this.T.add(await).and(await.get))
        )
      )
)
```

If `Q` is non-empty its head is removed and resolves this take at once;
otherwise a fresh `Await` is appended to `T` and the take suspends on
`await.get`. -/
def take (s : QueueSt α) : QueueSt α :=
  match s.items with
  | v :: rest =>
      { s with
        items := rest
        results := s.results ++ [(s.nextId, v)]
        nextId := s.nextId + 1 }
  | [] =>
      { s with
        takers := s.takers ++ [s.nextId]
        nextId := s.nextId + 1 }

/-- `setAwaited(value)` from part_001 lines 98-109:

```ts
const itar = (list: List<UIO<boolean>>): UIO<List<UIO<boolean>>> =>
  this.T.shift.chain(_ =>
    _ === undefined
      ? FIO.of(list)
      : itar(list.prepend(_.set(FIO.of(value))))
  )
return itar(immutable.List.empty).chain(_ =>
  FIO.seq(_.asArray).tap(() => (!_.isEmpty ? this.Q.shift : FIO.void()))
)
```

`itar` drains **every** waiting `Await` out of `T`, prepending
`await.set(FIO.of(value))` effects to an accumulator; `FIO.seq` then
executes those `set`s (all with the same `value`), resolving the drained
takers in the prepended (reverse-of-FIFO) order; finally, if any taker
was drained, exactly one `Q.shift` removes one stored item. -/
def setAwaited (value : α) (s : QueueSt α) : QueueSt α :=
  let drained := s.takers
  let s1 :=
    { s with
      takers := []
      results := s.results ++ drained.reverse.map fun t => (t, value) }
  match drained with
  | [] => s1
  | _ :: _ => { s1 with items := s1.items.tail }

/-- `offer(a)` from part_001 lines 73-75:

```ts
return this.Q.add(a).tap(_ => this.setAwaited(_.value))
```

The item is unconditionally appended to `Q` (no capacity check anywhere),
then `setAwaited(a)` runs. -/
def offer (a : α) (s : QueueSt α) : QueueSt α :=
  setAwaited a { s with items := s.items ++ [a] }

/-- A quiescent queue interaction: a sequence of `take`s and `offer`s. -/
inductive QOp (α : Type) where
  | take : QOp α
  | offer : α → QOp α
deriving DecidableEq, Repr

/-- Apply one operation to the queue state. -/
def applyOp (s : QueueSt α) : QOp α → QueueSt α
  | .take => take s
  | .offer a => offer a s

/-- Run a sequence of operations from a given state. -/
def runOps (s : QueueSt α) (ops : List (QOp α)) : QueueSt α :=
  ops.foldl applyOp s

end QueueM

/-- C4: evaluating the queue code on the interaction
`take; take; offer 1; offer 2` starting from an empty `bounded(10)` queue:
`setAwaited` drains **all** waiting takers, so `offer(1)` resolves both
pending takes with the value `1` (and `offer(2)`'s value stays in `items`,
delivered to no take).  The sequence of values returned by the takes is
`1, 1`, not the offered sequence `1, 2`, and `offer` resolved two takers
instead of exactly one. -/
theorem c4_queue_broadcast_bug :
    QueueM.runOps (QueueM.bounded (α := Nat) 10)
        [.take, .take, .offer 1, .offer 2]
      = ⟨10, [2], [], [(1, 1), (0, 1)], 2⟩ := by
  decide

/-- C5: evaluating the queue code on `offer 1; offer 2` starting from an
empty `bounded(1)` queue leaves two stored items: `offer` never consults
`capacity` (part_001 stores it but no method reads it), so
`|items| ≤ capacity` fails. -/
theorem c5_queue_capacity_ignored :
    (QueueM.runOps (QueueM.bounded (α := Nat) 1) [.offer 1, .offer 2]).items.length = 2 ∧
      (QueueM.runOps (QueueM.bounded (α := Nat) 1) [.offer 1, .offer 2]).capacity = 1 := by
  decide

namespace QueueM

/-- The iteration inside `takeN(n)` from part_001 lines 87-96:

```ts
const itar = (i: number, list: List<A>): UIO<List<A>> =>
  FIO.if(
    i === n,
    FIO.of(list),
    this.take.chain(_ => itar(i + 1, list.prepend(_)))
  )
return itar(0, List.empty).map(_ => _.asArray)
```

The source counts `i` up from `0` to `n`; here the remaining count
`k = n - i` counts down, which makes the recursion structural.  `acc` is
the accumulated `list` (`prepend` = cons); `items` is the queue's `Q`
when it holds enough values for every `take` to resolve immediately
(a `take` on an empty `Q` would suspend: that case is `none`, outside
this claim's all-values-available scenario).  The final
`.map(_ => _.asArray)` reads the cons list head first — no reverse. -/
def takeNGo : Nat → List α → List α → Option (List α × List α)
  | 0, acc, items => some (acc, items)
  | k + 1, acc, items =>
      match items with
      | [] => none
      | v :: rest => takeNGo k (v :: acc) rest

/-- `takeN(n)` applied to a queue whose `items` hold the available values:
the collected list read out by `asArray`, if every `take` resolved. -/
def takeN (n : Nat) (items : List α) : Option (List α) :=
  (takeNGo n [] items).map fun p => p.fst

/-- Running the `takeN` iteration over `xs ++ rest` for `xs.length` steps
takes exactly `xs`, prepending each taken value to the accumulator. -/
theorem takeNGo_append (xs : List α) :
    ∀ (acc rest : List α),
      takeNGo xs.length acc (xs ++ rest) = some (xs.reverse ++ acc, rest) := by
  induction xs with
  | nil => intro acc rest; simp [takeNGo]
  | cons v xs ih =>
      intro acc rest
      simp [List.length_cons, List.cons_append, takeNGo, ih,
        List.reverse_cons, List.append_assoc, List.singleton_append]

end QueueM

/-- C6 counterexample: with the queue holding `[1, 2]`, `takeN(2)` takes
`1` then `2` but resolves with `[2, 1]`: the first taken value is last,
not first. -/
theorem c6_takeN_not_in_order :
    QueueM.takeN 2 [(1 : Nat), 2] = some [2, 1] ∧
      QueueM.takeN 2 [(1 : Nat), 2] ≠ some [1, 2] := by
  decide

/-- C6 (amended): for every `n ≥ 0` and a queue holding at least `n`
items, `takeN(n)` performs `take` `n` times (consuming the first `n`
stored values in FIFO order) and resolves with the collected values in
**reverse** take order: the i-th element of the result is the value
returned by the (n-1-i)-th take, because the iteration prepends each
taken value and the final `asArray` is not reversed. -/
theorem c6_takeN_reverse_order {α : Type} (xs rest : List α) :
    QueueM.takeN xs.length (xs ++ rest) = some xs.reverse := by
  simp [QueueM.takeN, QueueM.takeNGo_append xs [] rest]

namespace Comp

/-- `IOStatus` from `src/src/sources/Computation.ts` lines 7-12. -/
inductive IOStatus where
  | FORKED
  | RESOLVED
  | REJECTED
  | CANCELLED
deriving DecidableEq, Repr

/-- State created by `Computation.fork` (Computation.ts lines 27-58):
the mutable `status`, the `cancellations` array of collected cancel
handles (handle `0` is the one returned by `sh.asap`, pushed at line 40;
a handle returned by `cmp` is pushed at line 45), the calls forwarded to
the outer `rej`/`res` continuations in order, and the handles on which
the returned cancel closure has actually invoked cancellation. -/
structure CompSt (ε α : Type) where
  status : IOStatus
  cancellations : List Nat
  delivered : List (Sum ε α)
  cancelInvoked : List Nat
deriving DecidableEq, Repr

/-- The state right after `fork` has scheduled its `asap` task
(Computation.ts lines 28-29 and 40): status `FORKED`, the `asap` handle
collected, nothing delivered. -/
def forkInit : CompSt ε α :=
  ⟨.FORKED, [0], [], []⟩

/-- One invocation of `onRej`/`onRes` (Computation.ts lines 30-38):

```ts
const onRej: REJ = e => { status = IOStatus.REJECTED; rej(e) }
const onRes: RES<A> = a => { status = IOStatus.RESOLVED; res(a) }
```

The status is overwritten and the call is forwarded unconditionally —
there is no first-call-wins guard. -/
def onCall (s : CompSt ε α) (c : Sum ε α) : CompSt ε α :=
  { s with
    status := match c with | .inl _ => .REJECTED | .inr _ => .RESOLVED
    delivered := s.delivered ++ [c] }

/-- The body of the scheduled `asap` task (Computation.ts lines 41-50):
`cmp` runs, making the calls in `script` through `onRej`/`onRes`; then
either it throws (`thrown = some e`: the `catch` calls the **raw** outer
`rej(e)` — the status is *not* updated on this path) or it returns
(`ret`: a returned cancel handle is pushed onto `cancellations`). -/
def runTask (script : List (Sum ε α)) (thrown : Option ε) (ret : Option Nat)
    (s : CompSt ε α) : CompSt ε α :=
  let s1 := script.foldl onCall s
  match thrown with
  | some e => { s1 with delivered := s1.delivered ++ [.inl e] }
  | none =>
      match ret with
      | some h => { s1 with cancellations := s1.cancellations ++ [h] }
      | none => s1

/-- The cancel closure returned by `fork` (Computation.ts lines 53-58):

```ts
return () => {
  if (status === IOStatus.FORKED) {
    status = IOStatus.CANCELLED
    cancellations.forEach(_ => _())
  }
}
```
-/
def cancel (s : CompSt ε α) : CompSt ε α :=
  match s.status with
  | .FORKED =>
      { s with
        status := .CANCELLED
        cancelInvoked := s.cancelInvoked ++ s.cancellations }
  | _ => s

end Comp

/-- C7 counterexample: a computation that calls `res(1)` and then `res(2)`
has **both** calls forwarded to the continuation — the second invocation is
not ignored, contradicting the claim that evaluation resumes only with the
first invocation and subsequent calls are ignored. -/
theorem c7_second_call_not_ignored :
    (Comp.runTask [Sum.inr 1, Sum.inr 2] none none
        (Comp.forkInit (ε := Unit) (α := Nat))).delivered
      = [Sum.inr 1, Sum.inr 2] ∧
    (Comp.runTask [Sum.inr 1, Sum.inr 2] none none
        (Comp.forkInit (ε := Unit) (α := Nat))).delivered
      ≠ [Sum.inr 1] := by
  decide

/-- C7 (amended): the evaluation resumes with the first invocation of
`rej` or `res`, but every invocation — including each subsequent one — is
forwarded unconditionally to the continuation in call order
(`onRej`/`onRes` carry no first-call-wins guard; they only overwrite the
status and forward). -/
theorem c7_all_calls_forwarded (ε α : Type) (script : List (Sum ε α))
    (ret : Option Nat) :
    (Comp.runTask script none ret (Comp.forkInit (ε := ε) (α := α))).delivered
      = script := by
  have hfold : ∀ (s : Comp.CompSt ε α) (sc : List (Sum ε α)),
      (sc.foldl Comp.onCall s).delivered = s.delivered ++ sc := by
    intro s sc
    induction sc generalizing s with
    | nil => simp
    | cons c sc ih => simp [Comp.onCall, ih]
  cases ret <;> simp [Comp.runTask, Comp.forkInit, hfold]

/-- C8 counterexample: if `cmp` throws synchronously, the `catch` branch
calls the raw `rej` without updating the status, so the computation has
completed (its rejection was delivered) while `status` is still `FORKED`;
invoking the cancellation handle afterwards is **not** a no-op: it flips
the status to `CANCELLED` and invokes the collected scheduler handle. -/
theorem c8_cancel_after_throw_acts :
    (Comp.cancel (Comp.runTask [] (some ()) none
        (Comp.forkInit (ε := Unit) (α := Nat)))).cancelInvoked = [0] ∧
    (Comp.runTask [] (some ()) none
        (Comp.forkInit (ε := Unit) (α := Nat))).cancelInvoked = [] ∧
    (Comp.runTask [] (some ()) none
        (Comp.forkInit (ε := Unit) (α := Nat))).status = Comp.IOStatus.FORKED := by
  decide

/-- C8 (amended): the cancellation handle is idempotent, and invoking it
after the computation resolved or rejected **through the `onRes`/`onRej`
callbacks** is a no-op; the exception path is excluded: completion via a
synchronously thrown exception leaves the status `FORKED`, so a later
cancel still performs its cancellation actions (see the counterexample). -/
theorem c8_cancel_idempotent (ε α : Type) (s : Comp.CompSt ε α) :
    Comp.cancel (Comp.cancel s) = Comp.cancel s ∧
      (s.status = Comp.IOStatus.RESOLVED ∨ s.status = Comp.IOStatus.REJECTED →
        Comp.cancel s = s) := by
  constructor
  · cases h : s.status <;> simp [Comp.cancel, h]
  · intro hdone
    cases hdone with
    | inl h => simp [Comp.cancel, h]
    | inr h => simp [Comp.cancel, h]

/-- C8 witness: instantiating idempotence and the no-op-after-resolution
half at a concrete resolved state. -/
theorem c8_cancel_idempotent_witness :
    (Comp.cancel (Comp.cancel (Comp.runTask [Sum.inr 5] none none
          (Comp.forkInit (ε := Unit) (α := Nat))))
        = Comp.cancel (Comp.runTask [Sum.inr 5] none none Comp.forkInit)) ∧
      (Comp.runTask [Sum.inr 5] none none
          (Comp.forkInit (ε := Unit) (α := Nat))).status = Comp.IOStatus.RESOLVED ∧
      Comp.cancel (Comp.runTask [Sum.inr 5] none none
          (Comp.forkInit (ε := Unit) (α := Nat)))
        = Comp.runTask [Sum.inr 5] none none Comp.forkInit :=
  ⟨(c8_cancel_idempotent Unit Nat _).1, by decide,
    (c8_cancel_idempotent Unit Nat _).2 (Or.inl (by decide))⟩

namespace OnceM

/-- State shared by all observers of `eff.once` (part_000 lines 84-88):

```ts
public get once(): QIO<never, QIO<E1, A1>, R1> {
  return this.env.chain(env =>
    Await.of<E1, A1>().map(AWT => AWT.set(this.provide(env)).and(AWT.get))
  )
}
```

Every observer forks the same inner effect `AWT.set(eff).and(AWT.get)`
against the same `Await` `AWT`.  The `Await` is modelled from the spec
(sections 3, 4.4 and the ordering guarantee of section 4.3: `set`
succeeds at most once — the first `set` runs the stored effect and its
exit is the one every `get`/waiter shares, which is what "the inner
effect is forked exactly once across any number of observers; observers
share its exit" and the in-repo memoization test require):

* `cell` — the exit cached by the one successful `set` (`None` while
  unset);
* `envSt` — the state of the world the inner effect acts on (e.g. the
  counter);
* `execCount` — how many times the inner effect has been executed.

The inner effect itself is an atomic state transformer
`e : σ → σ × Outcome ε α` (its execution is not interleaved with the
other observers: spec section 5, single-threaded cooperative scheduling
with no yield inside the synchronous subloop). -/
structure OnceSt (σ ε α : Type) where
  cell : Option (Outcome ε α)
  envSt : σ
  execCount : Nat

/-- The empty `Await` paired with the untouched world: the state produced
by `Await.of()` before any observer runs. -/
def onceInit (s0 : σ) : OnceSt σ ε α :=
  ⟨none, s0, 0⟩

/-- One observer running the inner effect `AWT.set(e).and(AWT.get)`:
if the cell is empty, `set` executes `e` once, caches its exit, and
`get` returns it; if the cell is already populated, `set` returns
`false` without touching `e`, and `get` returns the cached exit. -/
def observe (e : σ → σ × Outcome ε α) (s : OnceSt σ ε α) :
    OnceSt σ ε α × Outcome ε α :=
  match s.cell with
  | some o => (s, o)
  | none =>
      let p := e s.envSt
      (⟨some p.2, p.1, s.execCount + 1⟩, p.2)

/-- `K` observers forked one after another on the same runtime, each
running the shared inner effect; returns the final state and the exits
the observers received, in order. -/
def observeK (e : σ → σ × Outcome ε α) :
    Nat → OnceSt σ ε α → OnceSt σ ε α × List (Outcome ε α)
  | 0, s => (s, [])
  | k + 1, s =>
      let p := observe e s
      let q := observeK e k p.1
      (q.1, p.2 :: q.2)

/-- Once the cell is populated, further observers change nothing and all
read the cached exit. -/
theorem observeK_cached (e : σ → σ × Outcome ε α) (o : Outcome ε α)
    (s : OnceSt σ ε α) (hc : s.cell = some o) :
    ∀ k, observeK e k s = (s, List.replicate k o) := by
  intro k
  induction k with
  | zero => simp [observeK]
  | succ k ih => simp [observeK, observe, hc, ih, List.replicate_succ]

end OnceM

/-- C2: for every (atomic) effect `e` and every number `K ≥ 2` of
observers of `e.once` on the same runtime, the inner effect is executed
exactly once in total across the `K` observers — the world `e` acts on
advances by exactly one application of `e` — and every observer receives
that single execution's exit; in particular, if `e` increments a counter,
the counter advances exactly once. -/
theorem c2_once_executes_once (σ ε α : Type) (e : σ → σ × Outcome ε α)
    (s0 : σ) (K : Nat) (hK : 2 ≤ K) :
    (OnceM.observeK e K (OnceM.onceInit s0)).1.execCount = 1 ∧
    (OnceM.observeK e K (OnceM.onceInit s0)).1.envSt = (e s0).1 ∧
    (OnceM.observeK e K (OnceM.onceInit s0)).2 = List.replicate K (e s0).2 := by
  obtain ⟨k, rfl⟩ : ∃ k, K = k + 1 := ⟨K - 1, by omega⟩
  have h1 : OnceM.observe e (OnceM.onceInit s0)
      = (⟨some (e s0).2, (e s0).1, 1⟩, (e s0).2) := by
    simp [OnceM.observe, OnceM.onceInit]
  have h2 := OnceM.observeK_cached e (e s0).2
      (⟨some (e s0).2, (e s0).1, 1⟩ : OnceM.OnceSt σ ε α) rfl k
  simp [OnceM.observeK, h1, h2, List.replicate_succ]

/-- C2 witness: a counter-incrementing effect observed twice advances the
counter from 0 to 1 and both observers see the exit `Success 1`. -/
theorem c2_once_executes_once_witness :
    (2 : Nat) ≤ 2 ∧
    ((OnceM.observeK (fun n => (n + 1, Outcome.success (ε := Unit) (n + 1))) 2
        (OnceM.onceInit 0)).1.execCount = 1 ∧
      (OnceM.observeK (fun n => (n + 1, Outcome.success (ε := Unit) (n + 1))) 2
        (OnceM.onceInit 0)).1.envSt
        = ((fun n => (n + 1, Outcome.success (ε := Unit) (n + 1))) 0).1 ∧
      (OnceM.observeK (fun n => (n + 1, Outcome.success (ε := Unit) (n + 1))) 2
        (OnceM.onceInit 0)).2
        = List.replicate 2
            ((fun n => (n + 1, Outcome.success (ε := Unit) (n + 1))) 0).2) :=
  ⟨by decide,
    c2_once_executes_once Nat Unit Nat
      (fun n => (n + 1, Outcome.success (n + 1))) 0 2 (by decide)⟩

namespace RaceM

/-- Runtime values flowing through the race protocol: base values of the
two racing effects, unit, booleans (returned by `Await.set`), fiber and
`Await` handles, pairs (from `zip`), and the `Option`/`Either` layers of
fiber exits (`Fiber.await` resumes with `Option<Either<E,A>>`, spec
section 4.3). -/
inductive V (α : Type) : Type where
  | base : α → V α
  | unitV : V α
  | boolV : Bool → V α
  | fiber : Nat → V α
  | awt : Nat → V α
  | pair : V α → V α → V α
  | noneV : V α
  | someV : V α → V α
  | leftV : V α → V α
  | rightV : V α → V α
deriving DecidableEq, Repr

/-- The effect instructions the race scenario executes.  The synchronous
constructors come from `src/unnamed/part_000` (`Tag.Constant`,
`Tag.Reject`, `Tag.Chain`, `Tag.Map`, `Tag.Fork`); the rest embed the
specific primitives the race code calls whose implementations are not
under `src/` and are modelled from the spec:

* `delayA d v` — the `Async` effect registered by `QIO.timeout(value,
  duration)` (part_000 lines 461-465): `scheduler.delay(res, duration,
  value)` resolves with `v` after `d` time units (spec section 4.1);
* `awaitOf`, `awaitSet`, `awaitGet`, `awaitDoneV` — the `Await` one-shot
  latch of spec sections 3/4.4 (`awaitDoneV` is the internal
  continuation of a winning `set` after its stored effect has run:
  cache the exit, flush the waiters, succeed with `true`);
* `fiberAwait`, `abortE` — `Fiber.await` / `Fiber.abort` of spec
  section 4.3 (cancellation protocol);
* `crash` — unreachable branch marker (pattern-match failure on a value
  shape that cannot occur); it poisons the machine if ever executed.

Environment threading (`env`/`provide` inside the `fork` getter,
part_000 lines 75-79) is elided: the racing effects here are closed. -/
inductive Eff (α : Type) : Type where
  | const : V α → Eff α
  | reject : V α → Eff α
  | chain : Eff α → (V α → Eff α) → Eff α
  | mapE : Eff α → (V α → V α) → Eff α
  | delayA : Nat → V α → Eff α
  | forkE : Eff α → Eff α
  | awaitOf : Eff α
  | awaitSet : Nat → Eff α → Eff α
  | awaitGet : Nat → Eff α
  | awaitDoneV : Nat → V α → Eff α
  | fiberAwait : Nat → Eff α
  | abortE : Nat → Eff α
  | crash : Eff α

/-- Fiber status (spec section 3, fiber state record): `pending`,
completed with a success or failure exit, or `aborted`; the status is
monotonic. -/
inductive FStatus (α : Type) : Type where
  | pending : FStatus α
  | done : V α → FStatus α
  | failed : V α → FStatus α
  | aborted : FStatus α
deriving DecidableEq, Repr

/-- Modelled from the spec (section 3): the mutable record of one fiber —
its status, the continuation stack saved while suspended (`Apply`
frames; the race scenario creates no `Recover` frames), the at-most-one
outstanding scheduler cancellation handle (stored as the seq number of
the pending timer task), and the waiter callbacks registered through
`Fiber.await`, recorded as the ids of the waiting fibers. -/
structure FiberSt (α : Type) : Type where
  status : FStatus α
  stack : List (V α → Eff α)
  cancelHandle : Option Nat
  waiters : List Nat

/-- Modelled from the spec (sections 3 and 4.4): the mutable core of an
`Await` — the `set`-at-most-once flag, the cached exit of the one
stored-and-executed effect, and the ids of fibers suspended in `get`. -/
structure AwSt (α : Type) : Type where
  flag : Bool
  cell : Option (V α)
  waiters : List Nat

/-- What a scheduled callback does when it runs: start a fresh fiber on
its initial effect, or resume a suspended fiber with a value. -/
inductive TaskAct (α : Type) : Type where
  | start : Eff α → TaskAct α
  | resume : V α → TaskAct α

/-- Modelled from the spec (sections 4.1 and 5): one scheduled callback
of the deterministic test scheduler, keyed by its absolute due time and
a monotonically increasing sequence number (callbacks at equal times run
in FIFO registration order; `asap` schedules at the current time,
`delay(d)` at `now + d`). -/
structure Task (α : Type) : Type where
  time : Nat
  seq : Nat
  fid : Nat
  act : TaskAct α

/-- The whole runtime: fibers and awaits addressed by allocation index,
the outstanding scheduled tasks, the next task sequence number, the
current time, and a poison flag (set by `crash` or fuel exhaustion;
never set in the executions proved below). -/
structure M (α : Type) : Type where
  fibers : List (FiberSt α)
  awaits : List (AwSt α)
  tasks : List (Task α)
  nextSeq : Nat
  now : Nat
  stuck : Bool

/-- Indexed read with default. -/
def getIdx (d : β) : List β → Nat → β
  | [], _ => d
  | x :: _, 0 => x
  | _ :: xs, n + 1 => getIdx d xs n

/-- Indexed write (no-op when out of bounds). -/
def setIdx : List β → Nat → β → List β
  | [], _, _ => []
  | _ :: xs, 0, b => b :: xs
  | x :: xs, n + 1, b => x :: setIdx xs n b

/-- A pending fiber with nothing saved. -/
def blankFiber : FiberSt α := ⟨.pending, [], none, []⟩

def getFib (m : M α) (fid : Nat) : FiberSt α := getIdx blankFiber m.fibers fid

def setFib (fid : Nat) (f : FiberSt α) (m : M α) : M α :=
  { m with fibers := setIdx m.fibers fid f }

def getAw (m : M α) (a : Nat) : AwSt α := getIdx ⟨false, none, []⟩ m.awaits a

def setAw (a : Nat) (w : AwSt α) (m : M α) : M α :=
  { m with awaits := setIdx m.awaits a w }

/-- Register a callback with the scheduler at an absolute time; returns
the handle (its seq number). -/
def schedule (time fid : Nat) (act : TaskAct α) (m : M α) : M α × Nat :=
  ({ m with
      tasks := m.tasks ++ [⟨time, m.nextSeq, fid, act⟩]
      nextSeq := m.nextSeq + 1 },
    m.nextSeq)

/-- Remove a scheduled callback by its handle (idempotent; spec
section 4.1: handles are cancellable idempotently and cancelling a spent
handle is a no-op). -/
def removeSeq (s : Nat) : List (Task α) → List (Task α)
  | [] => []
  | t :: ts => if t.seq = s then ts else t :: removeSeq s ts

/-- Resume every fiber in `ws` with `v` via `asap` callbacks (spec
section 4.3 step 4: async resumptions re-enter the loop through
`scheduler.asap`; section 5: completion callbacks are delivered in
registration order). -/
def scheduleWaiters (ws : List Nat) (v : V α) (m : M α) : M α :=
  ws.foldl (fun acc w => (schedule acc.now w (.resume v) acc).1) m

/-- The value `Fiber.await` resumes waiters with (spec section 4.3):
`Some(exit)` for a completed fiber, `None` for an aborted one. -/
def exitVal : FStatus α → V α
  | .done v => .someV (.rightV v)
  | .failed v => .someV (.leftV v)
  | _ => .noneV

/-- Terminate a fiber with the given terminal status: record it, drop the
saved stack and handle, and notify every waiter once (spec section 3,
fiber invariant 2). -/
def completeFiber (fid : Nat) (st : FStatus α) (m : M α) : M α :=
  let f := getFib m fid
  scheduleWaiters f.waiters (exitVal st) (setFib fid ⟨st, [], none, []⟩ m)

/-- Park a fiber: save its continuation stack and (for `Async` delays)
its outstanding cancellation handle. -/
def suspendFiber (fid : Nat) (stk : List (V α → Eff α)) (ch : Option Nat)
    (m : M α) : M α :=
  let f := getFib m fid
  setFib fid { f with stack := stk, cancelHandle := ch } m

end RaceM

namespace RaceM

/-- Modelled from the spec (section 4.3): the evaluation loop of one
fiber's scheduler turn.  Pure constructors reduce synchronously without
yielding (step 1): `const` pops an `Apply` frame or, with an empty
stack, completes the fiber (step 2); `reject` completes it as failed —
the race scenario contains no `Recover` frames, so failure unwinds every
remaining frame (step 3); `chain`/`mapE` push `Apply` frames.  The
suspension points (section 5) are:

* `delayA d v` — register the timer resolving with `v` at `d + now`
  (the commuted orientation of `now + d` keeps `d + 0` definitionally
  `d`) and store its handle as the fiber's `cancelHandle` (step 4);
* `awaitGet` on an unset `Await` — append this fiber to the latch's
  waiter list (section 4.4);
* `fiberAwait` on a pending fiber — append this fiber to the target's
  waiter list.

`forkE` allocates a new paused fiber and schedules its initial turn via
`asap`, succeeding immediately with the handle (step 5).  `awaitSet` on
a set latch succeeds with `false`; on an unset latch it raises the flag
first (spec section 4.3 tie-break: the losing `set` observes the latch
taken and is a no-op) and runs the stored effect, continuing with
`awaitDoneV`, which caches the exit, flushes the waiters and succeeds
with `true` (section 4.4).  `abortE` on a terminal fiber is a no-op;
on a pending fiber it cancels the outstanding handle, drops the stack,
marks it `aborted` and notifies every waiter once with `None` (section
4.3, cancellation protocol).  `fuel` bounds the number of reductions in
this turn; exhaustion poisons the machine (never reached below). -/
def runEff : Nat → Nat → Eff α → List (V α → Eff α) → M α → M α
  | 0, _, _, _, m => { m with stuck := true }
  | fuel + 1, fid, e, stk, m =>
    match e with
    | .const v =>
        match stk with
        | k :: rest => runEff fuel fid (k v) rest m
        | [] => completeFiber fid (.done v) m
    | .reject v => completeFiber fid (.failed v) m
    | .chain e1 k => runEff fuel fid e1 (k :: stk) m
    | .mapE e1 g => runEff fuel fid e1 ((fun v => .const (g v)) :: stk) m
    | .delayA d v =>
        let p := schedule (d + m.now) fid (.resume v) m
        suspendFiber fid stk (some p.2) p.1
    | .forkE e1 =>
        let cid := m.fibers.length
        let m1 := { m with fibers := m.fibers ++ [blankFiber] }
        let p := schedule m1.now cid (.start e1) m1
        runEff fuel fid (.const (.fiber cid)) stk p.1
    | .awaitOf =>
        let aid := m.awaits.length
        let m1 := { m with awaits := m.awaits ++ [⟨false, none, []⟩] }
        runEff fuel fid (.const (.awt aid)) stk m1
    | .awaitGet a =>
        match (getAw m a).cell with
        | some v => runEff fuel fid (.const v) stk m
        | none =>
            let w := getAw m a
            suspendFiber fid stk none (setAw a { w with waiters := w.waiters ++ [fid] } m)
    | .awaitSet a e1 =>
        match (getAw m a).flag with
        | true => runEff fuel fid (.const (.boolV false)) stk m
        | false =>
            let w := getAw m a
            runEff fuel fid (.chain e1 fun v => .awaitDoneV a v) stk
              (setAw a { w with flag := true } m)
    | .awaitDoneV a v =>
        let w := getAw m a
        let m1 := setAw a ⟨true, some v, []⟩ m
        runEff fuel fid (.const (.boolV true)) stk (scheduleWaiters w.waiters v m1)
    | .fiberAwait t =>
        match (getFib m t).status with
        | .pending =>
            let f := getFib m t
            suspendFiber fid stk none
              (setFib t { f with waiters := f.waiters ++ [fid] } m)
        | .done v => runEff fuel fid (.const (.someV (.rightV v))) stk m
        | .failed v => runEff fuel fid (.const (.someV (.leftV v))) stk m
        | .aborted => runEff fuel fid (.const .noneV) stk m
    | .abortE t =>
        match (getFib m t).status with
        | .pending =>
            let f := getFib m t
            let m1 :=
              match f.cancelHandle with
              | some h => { m with tasks := removeSeq h m.tasks }
              | none => m
            let m2 := setFib t ⟨.aborted, [], none, []⟩ m1
            runEff fuel fid (.const .unitV) stk (scheduleWaiters f.waiters .noneV m2)
        | _ => runEff fuel fid (.const .unitV) stk m
    | .crash => { m with stuck := true }

/-- Execute one scheduled callback.  A callback addressed to a fiber that
is no longer pending is ignored (status is monotonic, spec section 3);
resuming clears the fiber's saved stack and cancellation handle first
(spec section 4.3 step 4: the `Async` callbacks clear the cancel handle
and re-enter the loop). -/
def execTask (fuel : Nat) (t : Task α) (m : M α) : M α :=
  match (getFib m t.fid).status, t.act with
  | .pending, .start e => runEff fuel t.fid e [] m
  | .pending, .resume v =>
      let f := getFib m t.fid
      runEff fuel t.fid (.const v) f.stack
        (setFib t.fid { f with stack := [], cancelHandle := none } m)
  | _, _ => m

/-- The earliest outstanding callback: strictly smaller due time wins;
at equal times the earlier-registered one (appearing first in the
insertion-ordered list, with the smaller seq) wins — the deterministic
test scheduler of spec sections 4.1/5. -/
def pickBest (best : Task α) : List (Task α) → Task α
  | [] => best
  | t :: ts => pickBest (if t.time < best.time then t else best) ts

def pickMin : List (Task α) → Option (Task α)
  | [] => none
  | t :: ts => some (pickBest t ts)

/-- One scheduler turn: pop the earliest callback, advance the clock to
its due time, and run it. -/
def step (fuel : Nat) (m : M α) : M α :=
  match pickMin m.tasks with
  | none => m
  | some t => execTask fuel t { m with tasks := removeSeq t.seq m.tasks, now := t.time }

/-- Drive the scheduler for `n` turns. -/
def run : Nat → Nat → M α → M α
  | 0, _, m => m
  | n + 1, fuel, m => run n fuel (step fuel m)

/-- `runtime.unsafeRun(eff, …)`: a root fiber whose first turn is
scheduled via `asap` at time 0 (spec section 2, control flow). -/
def initM (e : Eff α) : M α :=
  ⟨[blankFiber], [], [⟨0, 0, 0, .start e⟩], 1, 0, false⟩

end RaceM

namespace RaceM

/-- `a.zipWith(b, c)` from part_000 lines 704-709:
`this.chain(a1 => that.map(a2 => c(a1, a2)))`. -/
def zipWith (a b : Eff α) (c : V α → V α → V α) : Eff α :=
  .chain a fun a1 => .mapE b fun a2 => c a1 a2

/-- `a.zip(b)` from part_000 lines 695-699:
`this.zipWith(that, (a, b) => [a, b])`. -/
def zip (a b : Eff α) : Eff α :=
  zipWith a b .pair

/-- `x.and(y)` from part_000 lines 535-538: `this.chain(() => aFb)`. -/
def andE (x y : Eff α) : Eff α :=
  .chain x fun _ => y

/-- `x.const(v)` from part_000 lines 561-563: `this.and(QIO.of(a))`. -/
def constE (x : Eff α) (v : V α) : Eff α :=
  andE x (.const v)

/-- `QIO.timeout(value, duration)` from part_000 lines 461-465: the
`Async` effect whose `register` is `RTM.scheduler.delay(res, duration,
value)` (the `runtime()` access is elided). -/
def timeout (v : V α) (duration : Nat) : Eff α :=
  .delayA duration v

/-- `QIO.fromEither(exit)` from part_000 lines 287-289:
`exit.fold(QIO.never(), QIO.reject, QIO.of)` — `Right a` becomes
`Const(a)`, `Left e` becomes `Reject(e)` (the never() seed of `fold`
is unreachable on an `Either`). -/
def fromEitherV : V α → Eff α
  | .rightV x => .const x
  | .leftV x => .reject x
  | _ => .crash

/-- One of the two registration effects inside `raceWith` (part_000
lines 663-676):

```ts
const resume1 = L.await.chain(exit => {
  return Option.isSome(exit)
    ? done.set(cb1(exit.value, R))
    : QIO.of(true)
})
```

`watched` is the fiber whose exit this racer observes, `other` the fiber
handed to the callback.  The continuation applied to the exit is split
out as `racerKont` so the frame a suspended racer fiber holds on its
stack has a name. -/
def racerKont (dn other : Nat) (cb : V α → Nat → Eff α) : V α → Eff α :=
  fun exit =>
    match exit with
    | .someV ev => .awaitSet dn (cb ev other)
    | .noneV => .const (.boolV true)
    | _ => .crash

/-- See `racerKont`: `L.await.chain(exit => …)`. -/
def resumeRacer (dn watched other : Nat) (cb : V α → Nat → Eff α) : Eff α :=
  .chain (.fiberAwait watched) (racerKont dn other cb)

/-- `a.raceWith(b, cb1, cb2)` from part_000 lines 655-681:

```ts
return Await.of<E3 | E4, A3 | A4>().chain(done =>
  this.fork.zip(that.fork).chain(([L, R]) => {
    const resume1 = …
    const resume2 = …
    return resume1.fork.and(resume2.fork).and(done.get)
  })
)
```
-/
def raceWith (a b : Eff α) (cb1 cb2 : V α → Nat → Eff α) : Eff α :=
  .chain .awaitOf fun d =>
    match d with
    | .awt dn =>
        .chain (zip (.forkE a) (.forkE b)) fun lr =>
          match lr with
          | .pair (.fiber l) (.fiber r) =>
              andE
                (andE (.forkE (resumeRacer dn l r cb1))
                  (.forkE (resumeRacer dn r l cb2)))
                (.awaitGet dn)
          | _ => .crash
    | _ => .crash

/-- The callback `race` passes on both sides (part_000 lines 645-648):
`(E, F) => F.abort.const(E)`. -/
def raceCb (e : V α) (f : Nat) : Eff α :=
  constE (.abortE f) e

/-- `a.race(b)` from part_000 lines 642-650:

```ts
return this.raceWith(
  that,
  (E, F) => F.abort.const(E),
  (E, F) => F.abort.const(E)
).chain(E => QIO.fromEither<E1 | E2, A1 | A2>(E))
```
-/
def race (a b : Eff α) : Eff α :=
  .chain (raceWith a b raceCb raceCb) fromEitherV

/-- The full scenario of the claim: run
`race(timeout(A, da), timeout(B, db))` as the root fiber under the
deterministic test scheduler.  9 scheduler turns reach quiescence; fuel
60 bounds the synchronous reductions of a single turn. -/
def raceRun (A B : α) (da db : Nat) : M α :=
  run 12 60 (initM (race (timeout (.base A) da) (timeout (.base B) db)))

/-- Status projection of fiber `fid` after the run.  In `raceRun` the
root fiber is 0, the fiber evaluating the first racing effect is 1 and
the fiber evaluating the second is 2 (allocation order of the two
`fork`s inside `raceWith`). -/
def statusOf (m : M α) (fid : Nat) : FStatus α :=
  (getFib m fid).status

end RaceM

namespace RaceM

/-- State after scheduler turn 5 of the race scenario.  Turn 1 ran the
root fiber 0 synchronously through `Await.of`, the four `fork`s and into
the suspending `done.get`; turns 2-5 ran the four children's first
ticks: fiber 1 and fiber 2 registered their timers (due `da` and `db`,
handles 5 and 6), fibers 3 and 4 registered as waiters of fibers 1 and
2 through `Fiber.await` and suspended holding their `racerKont` frame. -/
def raceMid5 (A B : α) (da db : Nat) : M α :=
  { fibers :=
      [⟨.pending, [fromEitherV], none, []⟩,
       ⟨.pending, [], some 5, [3]⟩,
       ⟨.pending, [], some 6, [4]⟩,
       ⟨.pending, [racerKont 0 2 raceCb], none, []⟩,
       ⟨.pending, [racerKont 0 1 raceCb], none, []⟩]
    awaits := [⟨false, none, [0]⟩]
    tasks := [⟨da, 5, 1, .resume (.base A)⟩, ⟨db, 6, 2, .resume (.base B)⟩]
    nextSeq := 7
    now := 0
    stuck := false }

/-- State after turn 6: with `da < db` the earlier timer fired, fiber 1
completed with `A`, and its waiter (fiber 3) was scheduled to resume
with the exit `Some(Right A)`. -/
def raceMid6 (A B : α) (da db : Nat) : M α :=
  { fibers :=
      [⟨.pending, [fromEitherV], none, []⟩,
       ⟨.done (.base A), [], none, []⟩,
       ⟨.pending, [], some 6, [4]⟩,
       ⟨.pending, [racerKont 0 2 raceCb], none, []⟩,
       ⟨.pending, [racerKont 0 1 raceCb], none, []⟩]
    awaits := [⟨false, none, [0]⟩]
    tasks := [⟨db, 6, 2, .resume (.base B)⟩,
      ⟨da, 7, 3, .resume (.someV (.rightV (.base A)))⟩]
    nextSeq := 8
    now := da
    stuck := false }

/-- State after turn 7, the decisive one: fiber 3 resumed with fiber 1's
exit and won `done.set`, whose stored effect `F.abort.const(E)` aborted
fiber 2 — cancelling its outstanding timer (handle 6, so the `db` timer
never fires) and scheduling its waiter (fiber 4) with `None` — then the
latch cached `Right A`, scheduling the root fiber's resumption. -/
def raceMid7 (A _B : α) (da _db : Nat) : M α :=
  { fibers :=
      [⟨.pending, [fromEitherV], none, []⟩,
       ⟨.done (.base A), [], none, []⟩,
       ⟨.aborted, [], none, []⟩,
       ⟨.done (.boolV true), [], none, []⟩,
       ⟨.pending, [racerKont 0 1 raceCb], none, []⟩]
    awaits := [⟨true, some (.rightV (.base A)), []⟩]
    tasks := [⟨da, 8, 4, .resume .noneV⟩, ⟨da, 9, 0, .resume (.rightV (.base A))⟩]
    nextSeq := 10
    now := da
    stuck := false }

/-- State after turn 8: the losing racer (fiber 4) observed the aborted
fiber's `None` exit and completed as a no-op (`QIO.of(true)`). -/
def raceMid8 (A _B : α) (da _db : Nat) : M α :=
  { fibers :=
      [⟨.pending, [fromEitherV], none, []⟩,
       ⟨.done (.base A), [], none, []⟩,
       ⟨.aborted, [], none, []⟩,
       ⟨.done (.boolV true), [], none, []⟩,
       ⟨.done (.boolV true), [], none, []⟩]
    awaits := [⟨true, some (.rightV (.base A)), []⟩]
    tasks := [⟨da, 9, 0, .resume (.rightV (.base A))⟩]
    nextSeq := 10
    now := da
    stuck := false }

/-- Quiescent final state: the root fiber resumed with `Right A`,
`fromEither` turned it into `Const A`, and the root completed with `A`;
fiber 2 — the evaluator of the slower effect — is `aborted`. -/
def raceFinal (A _B : α) (da _db : Nat) : M α :=
  { fibers :=
      [⟨.done (.base A), [], none, []⟩,
       ⟨.done (.base A), [], none, []⟩,
       ⟨.aborted, [], none, []⟩,
       ⟨.done (.boolV true), [], none, []⟩,
       ⟨.done (.boolV true), [], none, []⟩]
    awaits := [⟨true, some (.rightV (.base A)), []⟩]
    tasks := []
    nextSeq := 10
    now := da
    stuck := false }

/-- Scheduler turns compose. -/
theorem run_add (f : Nat) : ∀ (a b : Nat) (m : M α),
    run (a + b) f m = run b f (run a f m) := by
  intro a
  induction a with
  | zero => intro b m; rw [Nat.zero_add]; rfl
  | succ a ih =>
      intro b m
      have hn : a + 1 + b = (a + b) + 1 := by omega
      rw [hn]
      show run (a + b) f (step f m) = run b f (run (a + 1) f m)
      rw [ih]
      rfl

end RaceM

set_option maxHeartbeats 8000000 in
/-- C1: for every pair of values `A`, `B` and delays `da < db` under the
deterministic test scheduler, running
`race(delay(da, A), delay(db, B))` completes the root fiber with success
`A`, and the fiber evaluating the second (slower) effect ends in the
`Aborted` state.  The run is evaluated turn by turn: turns 1-5 and the
turns from 9 on are settled definitionally; turns 6, 7 and 8 — the only
ones whose scheduling compares the symbolic times — are settled by the
three comparison facts `¬ db < da`, `da < db` and `¬ da < da`. -/
theorem c1_race_determinism {α : Type} (A B : α) (da db : Nat) (h : da < db) :
    RaceM.statusOf (RaceM.raceRun A B da db) 0 = RaceM.FStatus.done (RaceM.V.base A) ∧
      RaceM.statusOf (RaceM.raceRun A B da db) 2 = RaceM.FStatus.aborted := by
  have h1 : ¬ db < da := Nat.lt_asymm h
  have h2 : ¬ da < da := Nat.lt_irrefl da
  have e5 : RaceM.run 5 60 (RaceM.initM (RaceM.race (RaceM.timeout (RaceM.V.base A) da)
      (RaceM.timeout (RaceM.V.base B) db))) = RaceM.raceMid5 A B da db := rfl
  have p6 : RaceM.pickMin (RaceM.raceMid5 A B da db).tasks
      = some ⟨da, 5, 1, RaceM.TaskAct.resume (RaceM.V.base A)⟩ := by
    simp only [RaceM.raceMid5, RaceM.pickMin, RaceM.pickBest, if_neg h1]
  have e6 : RaceM.step 60 (RaceM.raceMid5 A B da db) = RaceM.raceMid6 A B da db := by
    unfold RaceM.step
    rw [p6]
    rfl
  have p7 : RaceM.pickMin (RaceM.raceMid6 A B da db).tasks
      = some ⟨da, 7, 3, RaceM.TaskAct.resume (.someV (.rightV (.base A)))⟩ := by
    simp only [RaceM.raceMid6, RaceM.pickMin, RaceM.pickBest, if_pos h]
  have e7 : RaceM.step 60 (RaceM.raceMid6 A B da db) = RaceM.raceMid7 A B da db := by
    unfold RaceM.step
    rw [p7]
    rfl
  have p8 : RaceM.pickMin (RaceM.raceMid7 A B da db).tasks
      = some ⟨da, 8, 4, RaceM.TaskAct.resume .noneV⟩ := by
    simp only [RaceM.raceMid7, RaceM.pickMin, RaceM.pickBest, if_neg h2]
  have e8 : RaceM.step 60 (RaceM.raceMid7 A B da db) = RaceM.raceMid8 A B da db := by
    unfold RaceM.step
    rw [p8]
    rfl
  have e9 : RaceM.run 4 60 (RaceM.raceMid8 A B da db) = RaceM.raceFinal A B da db := rfl
  have esplit : RaceM.raceRun A B da db
      = RaceM.run 7 60 (RaceM.run 5 60 (RaceM.initM (RaceM.race
          (RaceM.timeout (RaceM.V.base A) da) (RaceM.timeout (RaceM.V.base B) db)))) := by
    show RaceM.run 12 60 _ = _
    rw [show (12 : Nat) = 5 + 7 by norm_num, RaceM.run_add]
  have echain : RaceM.run 7 60 (RaceM.raceMid5 A B da db) = RaceM.raceFinal A B da db := by
    have s1 : RaceM.run 7 60 (RaceM.raceMid5 A B da db)
        = RaceM.run 6 60 (RaceM.step 60 (RaceM.raceMid5 A B da db)) := rfl
    have s2 : RaceM.run 6 60 (RaceM.raceMid6 A B da db)
        = RaceM.run 5 60 (RaceM.step 60 (RaceM.raceMid6 A B da db)) := rfl
    have s3 : RaceM.run 5 60 (RaceM.raceMid7 A B da db)
        = RaceM.run 4 60 (RaceM.step 60 (RaceM.raceMid7 A B da db)) := rfl
    rw [s1, e6, s2, e7, s3, e8, e9]
  rw [esplit, e5, echain]
  exact ⟨rfl, rfl⟩

/-- C1 witness: the race of `delay(1, 1)` against `delay(2, 2)` yields
`1` and aborts the slower fiber. -/
theorem c1_race_determinism_witness :
    (1 : Nat) < 2 ∧
      (RaceM.statusOf (RaceM.raceRun (1 : Nat) 2 1 2) 0
          = RaceM.FStatus.done (RaceM.V.base 1) ∧
        RaceM.statusOf (RaceM.raceRun (1 : Nat) 2 1 2) 2 = RaceM.FStatus.aborted) :=
  ⟨by decide, c1_race_determinism 1 2 1 2 (by decide)⟩
